import Mathlib

/-!
Shallow embedding of the zoning-demo repository's zone persistence and
editing logic, together with theorems settling the frozen claims about it.

Source layout:
* `src/unnamed/part_002` — the storage module (`saveZones`, `loadZones`,
  `deleteZone` over a single `localStorage` key).
* `src/unnamed/part_001` — the map component (`generateZoneName`,
  `toggleZoneEditMode`, `saveZone`, `createManualZone`, `handleDeleteZone`,
  and the `polygoncomplete` listener).

Modelling conventions:
* JavaScript numbers are modelled as `JsNum`: either NaN, plus or minus
  infinity, or a finite rational represented as an unnormalized fraction
  `Frac` (integer numerator over positive power-of-ten denominator as the
  parser produces them).  Floating-point rounding is not modelled; all the
  decimal literals in the claims are exactly representable at the precision
  the claims use them.
* `localStorage` with the single `map-zones` key is modelled as a cell
  `StoreCell` that is missing, corrupt (undecodable payload), or holds a
  decoded list of `ZoneData`.  `JSON.stringify`/`JSON.parse` of a decodable
  record list is modelled as the identity on that list.
* The Google Maps polygon object attached to each runtime zone is external;
  its one observable bit used by the component logic, the `editable` flag,
  is carried on the zone model as `polyEditable`.  Each zone owns a distinct
  polygon object, so the source's find-then-mutate on the polygon is
  modelled as an update of the first list entry with the matching id.
-/

namespace Zoning

/-- An unnormalized fraction: integer numerator over a (positive in all
constructions below) natural denominator.  Used to represent finite
JavaScript numbers exactly without any gcd normalization, so that equality
remains kernel-computable. -/
structure Frac where
  num : Int
  den : Nat
deriving DecidableEq

/-- Semantic value of a fraction as a Mathlib rational, used to relate the
representation to the decimal literals appearing in the claims. -/
def Frac.toRat (q : Frac) : Rat :=
  (q.num : Rat) / (q.den : Rat)

/-- A JavaScript number: NaN, an infinity, or a finite value. -/
inductive JsNum where
  | nan
  | inf
  | ninf
  | fin (q : Frac)
deriving DecidableEq

/-- Models JavaScript `isNaN` on a number value. -/
def JsNum.isNaN : JsNum → Bool
  | .nan => true
  | _ => false

/-- Models JavaScript `Number.isFinite`. -/
def JsNum.isFinite : JsNum → Bool
  | .fin _ => true
  | _ => false

/-- Whitespace characters recognised when trimming (the ASCII whitespace
relevant to the inputs in question; JavaScript `trim` also strips further
Unicode whitespace, which none of the claims exercise). -/
def isWsChar (c : Char) : Bool :=
  c = ' ' || c = '\t' || c = '\n' || c = '\r' || c = '\x0b' || c = '\x0c'

/-- Models `String.prototype.trim` on the character list of a string. -/
def trimChars (cs : List Char) : List Char :=
  ((cs.dropWhile isWsChar).reverse.dropWhile isWsChar).reverse

/-- Models `String.prototype.trim`. -/
def jsTrim (s : String) : String :=
  ⟨trimChars s.data⟩

/-- Value of a list of decimal digit characters, most significant first
(the semantics of `parseInt(·, 10)` on an all-digit string). -/
def digitsToNat (ds : List Char) : Nat :=
  ds.foldl (fun a c => 10 * a + (c.toNat - '0'.toNat)) 0

/-- Whether the second list starts with the first. -/
def startsWithChars : List Char → List Char → Bool
  | [], _ => true
  | _ :: _, [] => false
  | p :: ps, c :: cs => p = c && startsWithChars ps cs

/-- Models JavaScript `String.prototype.split` with a single-character
separator: `splitOnChar sep cs` returns the (always nonempty) list of
chunks of `cs` between occurrences of `sep`. -/
def splitOnChar (sep : Char) : List Char → List (List Char)
  | [] => [[]]
  | c :: rest =>
    let r := splitOnChar sep rest
    if c = sep then [] :: r
    else
      match r with
      | [] => [[c]]
      | h :: t => (c :: h) :: t

/-- Exponent value of an optional trailing `e`/`E` exponent part, per
`parseFloat` longest-valid-prefix semantics: an `e` not followed by at
least one digit (after an optional sign) contributes no exponent. -/
def parseExpVal (cs : List Char) : Int :=
  match cs with
  | c :: rest =>
    if c = 'e' || c = 'E' then
      match rest with
      | s :: rest2 =>
        if s = '+' then
          let ds := rest2.takeWhile Char.isDigit
          if ds.isEmpty then 0 else (digitsToNat ds : Int)
        else if s = '-' then
          let ds := rest2.takeWhile Char.isDigit
          if ds.isEmpty then 0 else -(digitsToNat ds : Int)
        else
          let ds := rest.takeWhile Char.isDigit
          if ds.isEmpty then 0 else (digitsToNat ds : Int)
      | [] => 0
    else 0
  | [] => 0

/-- Parses the longest unsigned decimal-literal value at the head of the
input, per JavaScript `parseFloat`: digits, an optional fraction part, and
an optional exponent; `none` when not even one digit is present. -/
def parseUnsigned (cs : List Char) : Option Frac :=
  let intDs := cs.takeWhile Char.isDigit
  let rest1 := cs.dropWhile Char.isDigit
  let fracDs :=
    match rest1 with
    | '.' :: r => r.takeWhile Char.isDigit
    | _ => []
  let rest2 :=
    match rest1 with
    | '.' :: r => r.dropWhile Char.isDigit
    | _ => rest1
  if intDs.isEmpty && fracDs.isEmpty then none
  else
    let den : Nat := 10 ^ fracDs.length
    let mant : Int := (digitsToNat intDs : Int) * (den : Int) + (digitsToNat fracDs : Int)
    let e := parseExpVal rest2
    if 0 ≤ e then some ⟨mant * (10 : Int) ^ e.toNat, den⟩
    else some ⟨mant, den * 10 ^ (-e).toNat⟩

/-- The sign-aware tail of `parseFloat`: an optionally signed `Infinity`
literal or an unsigned decimal literal. -/
def parseFloatSigned (neg : Bool) (cs : List Char) : JsNum :=
  if startsWithChars "Infinity".data cs then
    if neg then .ninf else .inf
  else
    match parseUnsigned cs with
    | none => .nan
    | some q => .fin (if neg then ⟨-q.num, q.den⟩ else q)

/-- Models JavaScript `parseFloat`: skips leading whitespace, reads an
optional sign, then the longest valid prefix that is an `Infinity` literal
or a decimal literal; NaN when there is none. -/
def jsParseFloatChars (cs : List Char) : JsNum :=
  match cs.dropWhile isWsChar with
  | '+' :: r => parseFloatSigned false r
  | '-' :: r => parseFloatSigned true r
  | r => parseFloatSigned false r

/-- Models JavaScript `parseFloat` on a string. -/
def jsParseFloat (s : String) : JsNum :=
  jsParseFloatChars s.data

/-!  Manual coordinate text parsing, from `createManualZone` in
`src/unnamed/part_001` (lines 785-794):

```
const coordPairs = manualForm.coordinates.split('\n').filter(line => line.trim());
coordinates = coordPairs.map(pair => {
  const [lat, lng] = pair.split(',').map(s => parseFloat(s.trim()));
  if (isNaN(lat) || isNaN(lng)) {
    throw new Error(`Invalid coordinate pair: \x7bpair\x7d`);
  }
  return new google.maps.LatLng(lat, lng);
});
```

The thrown error is the spec's `MalformedCoordinateError`; it is modelled
via `Except String`, carrying the offending line.  A line with a single
comma-separated component leaves `lng` destructured as `undefined`, which
`isNaN` coerces to NaN; that coercion is modelled by defaulting the missing
component to NaN, whose only observable use is the `isNaN` test. -/

instance exceptDecEq {ε α : Type} [DecidableEq ε] [DecidableEq α] :
    DecidableEq (Except ε α) := fun a b =>
  match a, b with
  | .error e, .error e' =>
    if h : e = e' then isTrue (by rw [h]) else isFalse (by intro hc; injection hc; exact h (by assumption))
  | .error _, .ok _ => isFalse (by intro hc; exact Except.noConfusion hc)
  | .ok _, .error _ => isFalse (by intro hc; exact Except.noConfusion hc)
  | .ok v, .ok v' =>
    if h : v = v' then isTrue (by rw [h]) else isFalse (by intro hc; injection hc; exact h (by assumption))

/-- The two values destructured from one line: split on commas, trim and
`parseFloat` each part, take the first two results (a missing second
component is `undefined`, observable below only through `isNaN`, hence
defaulted to NaN). -/
def parseLinePair (line : String) : JsNum × JsNum :=
  let parsed := (splitOnChar ',' line.data).map (fun p => jsParseFloatChars (trimChars p))
  (parsed.headD JsNum.nan, (parsed.drop 1).headD JsNum.nan)

/-- The line-rejection test: either destructured value is NaN. -/
def lineMalformed (line : String) : Bool :=
  (parseLinePair line).1.isNaN || (parseLinePair line).2.isNaN

/-- Parses one line of manual coordinate input, failing with the line
itself when it is malformed. -/
def parseLine (line : String) : Except String (JsNum × JsNum) :=
  if lineMalformed line then .error line else .ok (parseLinePair line)

/-- The nonblank lines of the manual coordinate text: split on newlines,
keep lines whose trimmed form is nonempty (JavaScript string truthiness of
`line.trim()`). -/
def nonblankLines (text : String) : List String :=
  ((splitOnChar '\n' text.data).map (fun l => String.mk l)).filter
    (fun l => !(trimChars l.data).isEmpty)

/-- The manual coordinate parser: parses every nonblank line in order and
fails on the first malformed line, producing no partial result. -/
def parseManualText (text : String) : Except String (List (JsNum × JsNum)) :=
  (nonblankLines text).mapM parseLine

/-!  Data model, from `src/types/zone.ts`.  `ZoneData` is the persisted
record; `Zone` is the runtime record whose `coordinates` hold live
`google.maps.LatLng` objects, modelled as the same plain pairs (the LatLng
constructor and its `lat()`/`lng()` accessors are the external map SDK,
treated as an exact pair representation).  The runtime zone additionally
carries the untyped `polygon` back-reference; its one field the component
logic reads or writes, the `editable` flag, is modelled as `polyEditable`. -/

/-- A latitude/longitude pair (`{ lat: number; lng: number }`, and equally
a live `google.maps.LatLng`). -/
structure Coord where
  lat : JsNum
  lng : JsNum
deriving DecidableEq

/-- The persisted zone record (`ZoneData` in `src/types/zone.ts`). -/
structure ZoneData where
  id : String
  name : String
  description : String
  coordinates : List Coord
  color : String
  createdAt : String
  updatedAt : String
deriving DecidableEq

/-- The runtime zone (`Zone` in `src/types/zone.ts` plus the polygon
back-reference's observable `editable` flag). -/
structure Zone where
  id : String
  name : String
  description : String
  coordinates : List Coord
  color : String
  createdAt : String
  updatedAt : String
  polyEditable : Bool
deriving DecidableEq

/-- A persisted record is valid when every coordinate is a finite number
(the precondition of the round-trip claim: JSON serialization of
non-finite numbers is lossy). -/
def ZoneData.valid (d : ZoneData) : Bool :=
  d.coordinates.all (fun c => c.lat.isFinite && c.lng.isFinite)

/-!  Zone store, from `src/unnamed/part_002`.  The single `localStorage`
entry under the `map-zones` key is modelled as a `StoreCell`: absent
(`getItem` returns null), corrupt (present but `JSON.parse` throws), or a
decodable JSON array of records, identified with the record list itself
(`JSON.parse ∘ JSON.stringify` is the identity on decodable record lists).
`setItem` failures (quota) only log and are outside this functional
model. -/

/-- The persisted state of the `map-zones` key. -/
inductive StoreCell where
  | missing
  | corrupt
  | val (zones : List ZoneData)
deriving DecidableEq

/-- Models `saveZones`: overwrite the whole entry with the serialized
list. -/
def saveZones (zones : List ZoneData) (_st : StoreCell) : StoreCell :=
  .val zones

/-- Models `loadZones`: the decoded list, or `[]` when the entry is
missing (`stored ? JSON.parse(stored) : []`) or undecodable (the catch
branch logs and returns `[]`). -/
def loadZones : StoreCell → List ZoneData
  | .missing => []
  | .corrupt => []
  | .val zones => zones

/-- Models `deleteZone`: load, filter out the matching id, save; returns
the remaining records together with the updated store. -/
def deleteZone (zoneId : String) (st : StoreCell) : List ZoneData × StoreCell :=
  let zones := loadZones st
  let updatedZones := zones.filter (fun zone => zone.id ≠ zoneId)
  (updatedZones, saveZones updatedZones st)

/-!  Zone name generation, from `generateZoneName` in
`src/unnamed/part_001` (lines 213-223). -/

/-- The numeric suffix of a name matching the regular expression
`^Zone (\d+)$`, as `parseInt(·, 10)` reads it; `none` when the name does
not match. -/
def zoneNameNumber (name : String) : Option Nat :=
  match name.data with
  | 'Z' :: 'o' :: 'n' :: 'e' :: ' ' :: rest =>
    if !rest.isEmpty && rest.all Char.isDigit then some (digitsToNat rest) else none
  | _ => none

/-- Maximum of a list of naturals, 0 on the empty list (the behaviour of
`Math.max(...xs)` on the nonempty lists it is applied to below). -/
def listMaxNat (l : List Nat) : Nat :=
  l.foldr max 0

/-- Models `generateZoneName`: map each zone name to its matched numeric
suffix (0 when unmatched), keep the positive ones, and append one past
their maximum to `"Zone "`, or use 1 when none remain. -/
def generateZoneName (zs : List Zone) : String :=
  let existingNumbers := (zs.map (fun z => (zoneNameNumber z.name).getD 0)).filter
    (fun n => decide (0 < n))
  let nextNumber := if !existingNumbers.isEmpty then listMaxNat existingNumbers + 1 else 1
  "Zone " ++ Nat.repr nextNumber

/-- The name generator as the spec words it: `"Zone (max N + 1)"` where
`N` ranges over the numeric suffixes of names matching `"Zone N"`, and
`"Zone 1"` when no name matches. -/
def specGenerateName (zs : List Zone) : String :=
  let matched := zs.filterMap (fun z => zoneNameNumber z.name)
  if matched.isEmpty then "Zone 1" else "Zone " ++ Nat.repr (listMaxNat matched + 1)

/-!  Component state and the mutating operations, from
`src/unnamed/part_001`.  The relevant state is the registry (`zones`), the
persisted cell (the `map-zones` entry), and the id of the zone currently
in vertex-edit mode (`editingZoneId`).  Dialog-visibility state,
`selectedZone`, forms, and the drawing flag are UI state consumed as
explicit arguments of the operations below at the value they have when
the handler runs. -/

/-- Serialization of one runtime zone into the persisted shape (the
`zonesToSave` mapping: identity on the attribute fields and
`coord.lat()`/`coord.lng()` extraction on coordinates, which the `Coord`
model makes the identity as well). -/
def zoneToData (z : Zone) : ZoneData :=
  { id := z.id, name := z.name, description := z.description,
    coordinates := z.coordinates, color := z.color,
    createdAt := z.createdAt, updatedAt := z.updatedAt }

/-- Serialization of the whole registry. -/
def serializeZones (zs : List Zone) : List ZoneData :=
  zs.map zoneToData

/-- The ids of the registry's zones, in registry order. -/
def zoneIds (zs : List Zone) : List String :=
  zs.map (fun z => z.id)

/-- The component state the claims are about: registry, persisted cell,
and the zone currently in vertex-edit mode. -/
structure AppState where
  zones : List Zone
  store : StoreCell
  editingZoneId : Option String
deriving DecidableEq

/-- The attribute-edit form (`editForm`). -/
structure EditForm where
  name : String
  description : String
  color : String
deriving DecidableEq

/-- The manual-creation form (`manualForm`). -/
structure ManualForm where
  name : String
  description : String
  color : String
  coordinates : String
  centerAddress : String
deriving DecidableEq

/-- Sets the `editable` flag of the polygon of the first zone with the
given id (the source's `zones.find(...)` followed by
`polygon.setEditable(·)`; each zone owns a distinct polygon object). -/
def setEditableFirst (zoneId : String) (b : Bool) : List Zone → List Zone
  | [] => []
  | z :: rest =>
    if z.id = zoneId then { z with polyEditable := b } :: rest
    else z :: setEditableFirst zoneId b rest

/-- Models `toggleZoneEditMode` (lines 688-725): a no-op when no zone has
the id; otherwise toggles this zone's editability off, or disables the
previously editing zone (if any) and enables this one.  Closing the info
window is external UI. -/
def toggleZoneEditMode (zoneId : String) (s : AppState) : AppState :=
  match s.zones.find? (fun z => decide (z.id = zoneId)) with
  | none => s
  | some _ =>
    if s.editingZoneId = some zoneId then
      { s with zones := setEditableFirst zoneId false s.zones, editingZoneId := none }
    else
      let zones1 :=
        match s.editingZoneId with
        | some prevId => setEditableFirst prevId false s.zones
        | none => s.zones
      { s with zones := setEditableFirst zoneId true zones1, editingZoneId := some zoneId }

/-- Models the `polygoncomplete` listener (lines 558-617): build a zone
from the drawn path with a generated name, default color and empty
description, make its polygon non-editable, append it to the registry, and
save the serialization of the whole updated registry.  The drawn path, the
generated id (`Date.now().toString()`) and the timestamp
(`new Date().toISOString()`) are the external inputs. -/
def polygonComplete (coords : List Coord) (newId now : String) (s : AppState) : AppState :=
  let newZone : Zone :=
    { id := newId, name := generateZoneName s.zones, description := "",
      coordinates := coords, color := "#FF0000",
      createdAt := now, updatedAt := now, polyEditable := false }
  let updatedZones := s.zones ++ [newZone]
  { s with zones := updatedZones, store := saveZones (serializeZones updatedZones) s.store }

/-- Models `saveZone` (lines 730-774) with `selectedZone = some selected`:
replace the registry entry whose id matches with the selected zone
carrying the form's name, description and color and a fresh `updatedAt`,
then save the serialization of the whole updated registry.  Restyling the
polygon's fill and stroke colors is external rendering. -/
def saveZone (selected : Zone) (form : EditForm) (now : String) (s : AppState) : AppState :=
  let updatedZone : Zone :=
    { selected with
      name := form.name, description := form.description,
      color := form.color, updatedAt := now }
  let updatedZones := s.zones.map (fun zone => if zone.id = selected.id then updatedZone else zone)
  { s with zones := updatedZones, store := saveZones (serializeZones updatedZones) s.store }

/-- Models `handleDeleteZone` (lines 900-923) (and the identical
`handleDeleteZoneCallback`): a no-op when no zone has the id; otherwise
remove it from the registry, run the store-level `deleteZone`, and clear
the vertex-edit state when it pointed at the deleted zone.  Removing the
polygon from the map and closing modals are external UI. -/
def handleDeleteZone (zoneId : String) (s : AppState) : AppState :=
  match s.zones.find? (fun z => decide (z.id = zoneId)) with
  | none => s
  | some _ =>
    let updatedZones := s.zones.filter (fun z => decide (z.id ≠ zoneId))
    { zones := updatedZones,
      store := (deleteZone zoneId s.store).2,
      editingZoneId := if s.editingZoneId = some zoneId then none else s.editingZoneId }

/-- Outcome of a `createManualZone` call, mirroring its early returns and
catch branch. -/
inductive ManualResult where
  | noName
  | malformed (line : String)
  | geocodeFailed
  | needInput
  | tooFewVertices
  | created (z : Zone)
deriving DecidableEq

/-- The fixed `offset = 0.005` of the address-to-rectangle expansion. -/
def geocodeOffset : Frac :=
  ⟨5, 1000⟩

/-- Difference of two finite numbers. -/
def Frac.sub (a b : Frac) : Frac :=
  ⟨a.num * (b.den : Int) - b.num * (a.den : Int), a.den * b.den⟩

/-- Sum of two finite numbers. -/
def Frac.add (a b : Frac) : Frac :=
  ⟨a.num * (b.den : Int) + b.num * (a.den : Int), a.den * b.den⟩

/-- The rectangle `createManualZone` builds around a geocoded point
(lines 813-820): the four corners at latitude and longitude offsets of
`±0.005` degrees. -/
def addressRectangle (lat lng : Frac) : List Coord :=
  [ ⟨.fin (lat.sub geocodeOffset), .fin (lng.sub geocodeOffset)⟩,
    ⟨.fin (lat.sub geocodeOffset), .fin (lng.add geocodeOffset)⟩,
    ⟨.fin (lat.add geocodeOffset), .fin (lng.add geocodeOffset)⟩,
    ⟨.fin (lat.add geocodeOffset), .fin (lng.sub geocodeOffset)⟩ ]

/-- The shared tail of `createManualZone` after the vertex list is
resolved: reject fewer than 3 vertices, otherwise build the zone from the
form, append it to the registry, and save the serialization of the whole
updated registry. -/
def finishManualZone (form : ManualForm) (coordinates : List Coord) (newId now : String)
    (s : AppState) : AppState × ManualResult :=
  if coordinates.length < 3 then (s, .tooFewVertices)
  else
    let newZone : Zone :=
      { id := newId, name := form.name, description := form.description,
        coordinates := coordinates, color := form.color,
        createdAt := now, updatedAt := now, polyEditable := false }
    let updatedZones := s.zones ++ [newZone]
    ({ s with zones := updatedZones, store := saveZones (serializeZones updatedZones) s.store },
      .created newZone)

/-- Models `createManualZone` (lines 779-895): an empty trimmed name
returns immediately; a nonblank coordinates text is parsed (a parse
failure is caught, reported, and leaves everything unchanged); otherwise a
nonblank address is geocoded (`geo` is the external geocoder's response;
`none`, a rejection, is caught likewise) and expanded into the fixed
rectangle; with neither input an alert is shown and nothing happens. -/
def createManualZone (form : ManualForm) (geo : Option (Frac × Frac)) (newId now : String)
    (s : AppState) : AppState × ManualResult :=
  if (jsTrim form.name).data.isEmpty then (s, .noName)
  else if !(jsTrim form.coordinates).data.isEmpty then
    match parseManualText form.coordinates with
    | .error line => (s, .malformed line)
    | .ok pairs => finishManualZone form (pairs.map (fun p => ⟨p.1, p.2⟩)) newId now s
  else if !(jsTrim form.centerAddress).data.isEmpty then
    match geo with
    | none => (s, .geocodeFailed)
    | some (lat, lng) => finishManualZone form (addressRectangle lat lng) newId now s
  else (s, .needInput)

/-- The four registry-mutating operations of the claims: zone creation by
drawing completion, zone creation by manual submission, saving an
attribute edit, and deleting a zone. -/
inductive MutOp where
  | draw (coords : List Coord) (newId now : String)
  | manual (form : ManualForm) (geo : Option (Frac × Frac)) (newId now : String)
  | attrEdit (selected : Zone) (form : EditForm) (now : String)
  | delete (zoneId : String)

/-- State transition of one mutating operation. -/
def applyMutOp : MutOp → AppState → AppState
  | .draw coords newId now, s => polygonComplete coords newId now s
  | .manual form geo newId now, s => (createManualZone form geo newId now s).1
  | .attrEdit selected form now, s => saveZone selected form now s
  | .delete zoneId, s => handleDeleteZone zoneId s

/-- The persisted cell holds exactly the serialization of the in-memory
registry. -/
def storeSynced (s : AppState) : Prop :=
  loadZones s.store = serializeZones s.zones

/-- A startup state: no zone in vertex-edit mode, every polygon created
non-editable (both `loadSavedZones` and `createDefaultZone` construct
polygons with `editable: false`), and distinct ids. -/
def InitState (s : AppState) : Prop :=
  s.editingZoneId = none ∧ (∀ z ∈ s.zones, z.polyEditable = false) ∧ (zoneIds s.zones).Nodup

/-- One editor event affecting the registry or the vertex-edit state.  The
freshness side conditions on created ids embed the spec's id-uniqueness
invariant for the `Date.now()`-generated ids. -/
inductive Step : AppState → AppState → Prop where
  | toggle (zoneId : String) (s : AppState) : Step s (toggleZoneEditMode zoneId s)
  | draw (coords : List Coord) (newId now : String) (s : AppState)
      (fresh : newId ∉ zoneIds s.zones) : Step s (polygonComplete coords newId now s)
  | manual (form : ManualForm) (geo : Option (Frac × Frac)) (newId now : String) (s : AppState)
      (fresh : newId ∉ zoneIds s.zones) : Step s (createManualZone form geo newId now s).1
  | attrEdit (selected : Zone) (form : EditForm) (now : String) (s : AppState)
      (hmem : selected ∈ s.zones) : Step s (saveZone selected form now s)
  | delete (zoneId : String) (s : AppState) : Step s (handleDeleteZone zoneId s)

/-- The editor states reachable from a startup state. -/
inductive Reachable : AppState → Prop where
  | init (s : AppState) (h : InitState s) : Reachable s
  | step (s s' : AppState) (hr : Reachable s) (hs : Step s s') : Reachable s'

/-- The vertex-edit invariant: distinct ids, a zone's polygon is editable
exactly when that zone is the one in vertex-edit mode, and the vertex-edit
id (when set) belongs to a registry zone. -/
def EditInv (s : AppState) : Prop :=
  (zoneIds s.zones).Nodup ∧
  (∀ z ∈ s.zones, (z.polyEditable = true ↔ s.editingZoneId = some z.id)) ∧
  (∀ x, s.editingZoneId = some x → x ∈ zoneIds s.zones)

/-- At most one zone's polygon is editable. -/
def atMostOneEditable (s : AppState) : Prop :=
  (s.zones.filter (fun z => z.polyEditable)).length ≤ 1

/-!  Sample data used by the witness theorems. -/

/-- A concrete valid coordinate. -/
def sampleCoord : Coord :=
  ⟨.fin ⟨28, 1⟩, .fin ⟨-81, 1⟩⟩

/-- A concrete zone with the given id and name. -/
def sampleZone (zoneId nm : String) : Zone :=
  { id := zoneId, name := nm, description := "demo",
    coordinates := [sampleCoord, sampleCoord, sampleCoord], color := "#FF0000",
    createdAt := "2024-01-01T00:00:00.000Z", updatedAt := "2024-01-01T00:00:00.000Z",
    polyEditable := false }

/-- A concrete persisted record with the given id. -/
def sampleRecord (zoneId : String) : ZoneData :=
  zoneToData (sampleZone zoneId zoneId)

/-!  Theorems settling the claims. -/

/-- C2: for every valid sequence of zone records (all coordinates finite),
saving the sequence and then loading returns a sequence equal to the
original, record for record in the same order. -/
theorem claim_C2_save_load_round_trip (records : List ZoneData) (st : StoreCell)
    (_hvalid : records.all ZoneData.valid = true) :
    loadZones (saveZones records st) = records :=
  rfl

/-- Witness for C2 at a concrete record list and store. -/
theorem claim_C2_save_load_round_trip_witness :
    loadZones (saveZones [sampleRecord "z1"] StoreCell.missing) = [sampleRecord "z1"] :=
  claim_C2_save_load_round_trip [sampleRecord "z1"] StoreCell.missing (by decide)

/-- C6: loading when the underlying entry is missing or holds corrupt
(undecodable) data returns the empty sequence rather than failing (the
total return type of `loadZones` embeds that no failure propagates). -/
theorem claim_C6_load_missing_or_corrupt_empty :
    loadZones StoreCell.missing = [] ∧ loadZones StoreCell.corrupt = [] :=
  ⟨rfl, rfl⟩

/-- C3: `deleteZone` is exactly the composition load-filter-save and
returns the remaining records; when no stored record has the given id it
returns the stored set unchanged and the persisted record set is
unchanged. -/
theorem claim_C3_delete_is_load_filter_save (zoneId : String) (st : StoreCell) :
    (deleteZone zoneId st =
      ((loadZones st).filter (fun z => decide (z.id ≠ zoneId)),
        saveZones ((loadZones st).filter (fun z => decide (z.id ≠ zoneId))) st)) ∧
    ((∀ z ∈ loadZones st, z.id ≠ zoneId) →
      (deleteZone zoneId st).1 = loadZones st ∧
        loadZones (deleteZone zoneId st).2 = loadZones st) := by
  refine ⟨rfl, fun h => ?_⟩
  have hf : (loadZones st).filter (fun z => decide (z.id ≠ zoneId)) = loadZones st :=
    List.filter_eq_self.mpr (fun a ha => decide_eq_true (h a ha))
  have h2 : (deleteZone zoneId st).2 = StoreCell.val (loadZones st) := by
    show StoreCell.val ((loadZones st).filter (fun z => decide (z.id ≠ zoneId))) = _
    rw [hf]
  exact ⟨hf, by rw [h2]; rfl⟩

/-- Witness for C3 at a store whose single record does not carry the
deleted id. -/
theorem claim_C3_delete_witness :
    (deleteZone "nope" (StoreCell.val [sampleRecord "z1"])).1 =
        loadZones (StoreCell.val [sampleRecord "z1"]) ∧
      loadZones (deleteZone "nope" (StoreCell.val [sampleRecord "z1"])).2 =
        loadZones (StoreCell.val [sampleRecord "z1"]) :=
  (claim_C3_delete_is_load_filter_save "nope" (StoreCell.val [sampleRecord "z1"])).2
    (by decide)

/-- C10: submitting the manual-create dialog with a name that trims to the
empty string returns immediately: no zone is created, and neither the
registry nor the store is mutated. -/
theorem claim_C10_blank_name_noop (form : ManualForm) (geo : Option (Frac × Frac))
    (newId now : String) (s : AppState) (h : jsTrim form.name = "") :
    createManualZone form geo newId now s = (s, .noName) ∧
    (createManualZone form geo newId now s).1.zones = s.zones ∧
    (createManualZone form geo newId now s).1.store = s.store := by
  have hb : (jsTrim form.name).data.isEmpty = true := by rw [h]; rfl
  have h1 : createManualZone form geo newId now s = (s, .noName) := by
    simp [createManualZone, hb]
  exact ⟨h1, by rw [h1], by rw [h1]⟩

/-- Witness for C10 at a whitespace-only name. -/
theorem claim_C10_blank_name_noop_witness :
    createManualZone
        { name := "  ", description := "d", color := "#FF0000",
          coordinates := "1,2", centerAddress := "somewhere" }
        (some (⟨28, 1⟩, ⟨-81, 1⟩)) "id9" "now"
        { zones := [sampleZone "z1" "Zone 1"], store := StoreCell.missing,
          editingZoneId := none } =
      ({ zones := [sampleZone "z1" "Zone 1"], store := StoreCell.missing,
          editingZoneId := none }, .noName) :=
  (claim_C10_blank_name_noop _ _ _ _ _ (by decide)).1

/-- Difference of a finite number and the geocode offset, semantically. -/
theorem Frac.toRat_sub_offset (a : Frac) (h : 0 < a.den) :
    (a.sub geocodeOffset).toRat = a.toRat - 0.005 := by
  have hd : (a.den : Rat) ≠ 0 := ne_of_gt (by exact_mod_cast h)
  have h5 : (0.005 : Rat) = 5 / 1000 := by norm_num
  simp only [Frac.sub, Frac.toRat, geocodeOffset, h5]
  push_cast
  field_simp
  ring

/-- Sum of a finite number and the geocode offset, semantically. -/
theorem Frac.toRat_add_offset (a : Frac) (h : 0 < a.den) :
    (a.add geocodeOffset).toRat = a.toRat + 0.005 := by
  have hd : (a.den : Rat) ≠ 0 := ne_of_gt (by exact_mod_cast h)
  have h5 : (0.005 : Rat) = 5 / 1000 := by norm_num
  simp only [Frac.add, Frac.toRat, geocodeOffset, h5]
  push_cast
  field_simp
  try ring

/-- C8: for every geocoded point, the address-based creation path creates
a zone whose vertex list is exactly the 4 corners at offsets `±0.005`
degrees in latitude and longitude — a square of side `2 × 0.005` degrees
centered on the resolved point. -/
theorem claim_C8_address_square (form : ManualForm) (lat lng : Frac)
    (newId now : String) (s : AppState)
    (hname : (jsTrim form.name).data.isEmpty = false)
    (hcoords : (jsTrim form.coordinates).data.isEmpty = true)
    (haddr : (jsTrim form.centerAddress).data.isEmpty = false)
    (hld : 0 < lat.den) (hlgd : 0 < lng.den) :
    ((createManualZone form (some (lat, lng)) newId now s).2 =
      .created
        { id := newId, name := form.name, description := form.description,
          coordinates := addressRectangle lat lng, color := form.color,
          createdAt := now, updatedAt := now, polyEditable := false }) ∧
    addressRectangle lat lng =
      [ ⟨.fin (lat.sub geocodeOffset), .fin (lng.sub geocodeOffset)⟩,
        ⟨.fin (lat.sub geocodeOffset), .fin (lng.add geocodeOffset)⟩,
        ⟨.fin (lat.add geocodeOffset), .fin (lng.add geocodeOffset)⟩,
        ⟨.fin (lat.add geocodeOffset), .fin (lng.sub geocodeOffset)⟩ ] ∧
    (addressRectangle lat lng).length = 4 ∧
    (lat.sub geocodeOffset).toRat = lat.toRat - 0.005 ∧
    (lat.add geocodeOffset).toRat = lat.toRat + 0.005 ∧
    (lng.sub geocodeOffset).toRat = lng.toRat - 0.005 ∧
    (lng.add geocodeOffset).toRat = lng.toRat + 0.005 := by
  refine ⟨?_, rfl, rfl, Frac.toRat_sub_offset lat hld, Frac.toRat_add_offset lat hld,
    Frac.toRat_sub_offset lng hlgd, Frac.toRat_add_offset lng hlgd⟩
  simp [createManualZone, finishManualZone, addressRectangle, hname, hcoords, haddr]

/-- Successful batch parse: when no nonblank line is malformed, the
parser returns every line's value pair, in input order. -/
theorem mapM_parseLine_ok (ls : List String) (h : ∀ l ∈ ls, lineMalformed l = false) :
    ls.mapM parseLine = .ok (ls.map parseLinePair) := by
  induction ls with
  | nil => rfl
  | cons a ls ih =>
    have ha : lineMalformed a = false := h a (by simp)
    have htail := ih (fun l hl => h l (by simp [hl]))
    rw [List.mapM_cons, htail]
    simp only [parseLine, ha, Bool.false_eq_true, if_false]
    rfl

/-- Failing batch parse: when some nonblank line is malformed, the whole
batch fails with one of the malformed lines as the error, producing no
partial result. -/
theorem mapM_parseLine_error (ls : List String) (h : ∃ l ∈ ls, lineMalformed l = true) :
    ∃ l ∈ ls, lineMalformed l = true ∧ ls.mapM parseLine = .error l := by
  induction ls with
  | nil => simp at h
  | cons a ls ih =>
    cases ha : lineMalformed a with
    | true =>
      refine ⟨a, by simp, ha, ?_⟩
      rw [List.mapM_cons]
      simp only [parseLine, ha, if_true]
      rfl
    | false =>
      obtain ⟨l, hl, hml⟩ := h
      rcases List.mem_cons.mp hl with rfl | hl'
      · rw [ha] at hml; cases hml
      · obtain ⟨l', hl', hml', herr⟩ := ih ⟨l, hl', hml⟩
        refine ⟨l', by simp [hl'], hml', ?_⟩
        rw [List.mapM_cons, herr]
        simp only [parseLine, ha, Bool.false_eq_true, if_false]
        rfl

/-- C4 counterexample: the claim requires failure whenever a parsed value
is not a finite number, but the input `"Infinity,0"` parses a non-finite
latitude and the batch nevertheless succeeds (the code checks only
`isNaN`). -/
theorem claim_C4_counterexample_infinity_accepted :
    parseManualText "Infinity,0" = .ok [(JsNum.inf, JsNum.fin ⟨0, 1⟩)] ∧
    JsNum.isFinite JsNum.inf = false := by
  decide

/-- C4 (amended): `parseManualText` splits on newlines, discards blank
lines, splits each line on a comma and parses two floats; on success it
returns the pairs in input order, and when either parsed value of some
line is NaN (rather than: is not finite) it fails with
`MalformedCoordinateError` for the whole batch, producing no partial
result. -/
theorem claim_C4_parse_manual_text_amended :
    (parseManualText "40.1,-74.2\n41.0,-75.0" =
      .ok [(.fin ⟨401, 10⟩, .fin ⟨-742, 10⟩), (.fin ⟨410, 10⟩, .fin ⟨-750, 10⟩)]) ∧
    Frac.toRat ⟨401, 10⟩ = 40.1 ∧ Frac.toRat ⟨-742, 10⟩ = -74.2 ∧
    Frac.toRat ⟨410, 10⟩ = 41.0 ∧ Frac.toRat ⟨-750, 10⟩ = -75.0 ∧
    (parseManualText "abc,def" = .error "abc,def") ∧
    (∀ text, (∀ l ∈ nonblankLines text, lineMalformed l = false) →
      parseManualText text = .ok ((nonblankLines text).map parseLinePair)) ∧
    (∀ text, (∃ l ∈ nonblankLines text, lineMalformed l = true) →
      ∃ l ∈ nonblankLines text, lineMalformed l = true ∧
        parseManualText text = .error l) :=
  ⟨by decide, by norm_num [Frac.toRat], by norm_num [Frac.toRat],
    by norm_num [Frac.toRat], by norm_num [Frac.toRat], by decide,
    fun _ h => mapM_parseLine_ok _ h, fun _ h => mapM_parseLine_error _ h⟩

/-- Witness for C4 (amended) at a concrete well-formed input. -/
theorem claim_C4_parse_manual_text_amended_witness :
    parseManualText "1,2" = .ok ((nonblankLines "1,2").map parseLinePair) :=
  claim_C4_parse_manual_text_amended.2.2.2.2.2.2.1 "1,2" (by decide)

/-- `listMaxNat` of a cons. -/
theorem listMaxNat_cons (a : Nat) (l : List Nat) :
    listMaxNat (a :: l) = max a (listMaxNat l) :=
  rfl

/-- Dropping the zero entries does not change the maximum. -/
theorem listMaxNat_filter_pos (l : List Nat) :
    listMaxNat (l.filter (fun n => decide (0 < n))) = listMaxNat l := by
  induction l with
  | nil => rfl
  | cons a l ih =>
    rw [List.filter_cons]
    by_cases h : 0 < a
    · rw [if_pos (by simpa using h), listMaxNat_cons, listMaxNat_cons, ih]
    · have ha0 : a = 0 := Nat.eq_zero_of_not_pos h
      rw [if_neg (by simpa using h), ih, listMaxNat_cons, ha0]
      simp

/-- The positive entries of the defaulted-to-zero suffix list are the
positive entries of the matched suffix list. -/
theorem mapped_filter_eq_filterMap_filter (zs : List Zone) :
    (zs.map (fun z => (zoneNameNumber z.name).getD 0)).filter (fun n => decide (0 < n)) =
      (zs.filterMap (fun z => zoneNameNumber z.name)).filter (fun n => decide (0 < n)) := by
  induction zs with
  | nil => rfl
  | cons z zs ih =>
    cases hz : zoneNameNumber z.name with
    | none => simp [List.filter_cons, List.filterMap_cons, hz, ih]
    | some k => simp [List.filter_cons, List.filterMap_cons, hz, ih]

/-- A list whose positive entries are gone is all zeros, so its maximum
is zero. -/
theorem listMaxNat_eq_zero_of_filter_pos_nil (l : List Nat)
    (h : l.filter (fun n => decide (0 < n)) = []) : listMaxNat l = 0 := by
  induction l with
  | nil => rfl
  | cons a l ih =>
    rw [List.filter_cons] at h
    by_cases ha : 0 < a
    · simp [ha] at h
    · have ha0 : a = 0 := Nat.eq_zero_of_not_pos ha
      rw [if_neg (by simpa using ha)] at h
      simp [listMaxNat_cons, ha0, ih h]

/-- The name generator depends only on the list of zone names. -/
def genFromNames (names : List String) : String :=
  let existingNumbers := (names.map (fun nm => (zoneNameNumber nm).getD 0)).filter
    (fun n => decide (0 < n))
  let nextNumber := if !existingNumbers.isEmpty then listMaxNat existingNumbers + 1 else 1
  "Zone " ++ Nat.repr nextNumber

/-- `generateZoneName` factors through the zone names. -/
theorem generateZoneName_eq_genFromNames (zs : List Zone) :
    generateZoneName zs = genFromNames (zs.map (fun z => z.name)) := by
  simp [generateZoneName, genFromNames, List.map_map, Function.comp_def]

/-- C5: `generateZoneName` returns `"Zone (max N + 1)"` with `N` ranging
over the numeric suffixes of registry names matching `"Zone N"` and
`"Zone 1"` when no name matches (non-matching names, duplicates included,
are ignored); in particular the empty registry gives `"Zone 1"`, names
`"Zone 1"` and `"Zone 3"` give `"Zone 4"`, and names `"Foo"`, `"Bar"`
give `"Zone 1"`. -/
theorem claim_C5_generate_name :
    (∀ zs : List Zone, generateZoneName zs = specGenerateName zs) ∧
    generateZoneName [] = "Zone 1" ∧
    (∀ z1 z2 : Zone, z1.name = "Zone 1" → z2.name = "Zone 3" →
      generateZoneName [z1, z2] = "Zone 4") ∧
    (∀ z1 z2 : Zone, z1.name = "Foo" → z2.name = "Bar" →
      generateZoneName [z1, z2] = "Zone 1") := by
  refine ⟨?_, by decide, ?_, ?_⟩
  · intro zs
    simp only [generateZoneName, specGenerateName, mapped_filter_eq_filterMap_filter]
    by_cases hB : (zs.filterMap (fun z => zoneNameNumber z.name)).isEmpty
    · have hBnil : zs.filterMap (fun z => zoneNameNumber z.name) = [] :=
        List.isEmpty_iff.mp hB
      simp only [hBnil]
      rfl
    · by_cases hA :
        ((zs.filterMap (fun z => zoneNameNumber z.name)).filter
          (fun n => decide (0 < n))).isEmpty
      · have hAnil := List.isEmpty_iff.mp hA
        have hmax := listMaxNat_eq_zero_of_filter_pos_nil _ hAnil
        simp [hA, hB, hmax]
      · simp [hA, hB, listMaxNat_filter_pos]
  · intro z1 z2 h1 h2
    rw [generateZoneName_eq_genFromNames]
    simp only [List.map_cons, List.map_nil, h1, h2]
    decide
  · intro z1 z2 h1 h2
    rw [generateZoneName_eq_genFromNames]
    simp only [List.map_cons, List.map_nil, h1, h2]
    decide

/-- Witness for C5 at concrete registries. -/
theorem claim_C5_generate_name_witness :
    generateZoneName [sampleZone "a" "Zone 1", sampleZone "b" "Zone 3"] = "Zone 4" ∧
    generateZoneName [sampleZone "a" "Foo", sampleZone "b" "Bar"] = "Zone 1" :=
  ⟨claim_C5_generate_name.2.2.1 _ _ (by decide) (by decide),
    claim_C5_generate_name.2.2.2 _ _ (by decide) (by decide)⟩

/-- Witness for C8 at a concrete form, geocoded point and state. -/
theorem claim_C8_address_square_witness :
    (createManualZone
        { name := "Campus", description := "", color := "#0000FF",
          coordinates := "", centerAddress := "UCF" }
        (some (⟨28, 1⟩, ⟨-81, 1⟩)) "id7" "now"
        { zones := [], store := StoreCell.missing, editingZoneId := none }).2 =
      .created
        { id := "id7", name := "Campus", description := "",
          coordinates := addressRectangle ⟨28, 1⟩ ⟨-81, 1⟩, color := "#0000FF",
          createdAt := "now", updatedAt := "now", polyEditable := false } :=
  (claim_C8_address_square _ ⟨28, 1⟩ ⟨-81, 1⟩ "id7" "now" _
    (by decide) (by decide) (by decide) (by decide) (by decide)).1

/-- Two registry zones with equal ids are equal when the registry's ids
are distinct. -/
theorem zone_eq_of_id_eq (zs : List Zone) (hnodup : (zoneIds zs).Nodup)
    {a b : Zone} (ha : a ∈ zs) (hb : b ∈ zs) (hid : a.id = b.id) : a = b :=
  List.inj_on_of_nodup_map hnodup ha hb hid

/-- C9: saving an attribute edit replaces only the selected zone's name,
description and color and refreshes its `updatedAt`; the zone's id,
createdAt, vertices and polygon state, every other registry entry (at its
position), and the vertex-edit state are unchanged. -/
theorem claim_C9_attr_edit_frame (selected : Zone) (form : EditForm) (now : String)
    (s : AppState) (hnodup : (zoneIds s.zones).Nodup) (hmem : selected ∈ s.zones) :
    (saveZone selected form now s).zones.length = s.zones.length ∧
    (∀ (i : Nat) (z : Zone), s.zones[i]? = some z → z.id ≠ selected.id →
      (saveZone selected form now s).zones[i]? = some z) ∧
    (∀ (i : Nat) (z : Zone), s.zones[i]? = some z → z.id = selected.id →
      (saveZone selected form now s).zones[i]? = some
        { z with
          name := form.name, description := form.description,
          color := form.color, updatedAt := now }) ∧
    (saveZone selected form now s).editingZoneId = s.editingZoneId := by
  refine ⟨List.length_map _ _, fun i z hi hne => ?_, fun i z hi heq => ?_, rfl⟩
  · rw [show (saveZone selected form now s).zones
        = s.zones.map (fun zone => if zone.id = selected.id then
            { selected with
              name := form.name, description := form.description,
              color := form.color, updatedAt := now } else zone) from rfl]
    rw [List.getElem?_map, hi]
    simp [hne]
  · have hzmem : z ∈ s.zones := List.getElem?_mem hi
    have hz : z = selected := zone_eq_of_id_eq s.zones hnodup hzmem hmem heq
    subst hz
    rw [show (saveZone z form now s).zones
        = s.zones.map (fun zone => if zone.id = z.id then
            { z with
              name := form.name, description := form.description,
              color := form.color, updatedAt := now } else zone) from rfl]
    rw [List.getElem?_map, hi]
    simp

/-- Witness for C9 at a concrete two-zone registry. -/
theorem claim_C9_attr_edit_frame_witness :
    (saveZone (sampleZone "a" "Zone 1") ⟨"New", "desc", "#00FF00"⟩ "t2"
        { zones := [sampleZone "a" "Zone 1", sampleZone "b" "Zone 2"],
          store := StoreCell.missing, editingZoneId := none }).zones[1]? =
      some (sampleZone "b" "Zone 2") :=
  (claim_C9_attr_edit_frame (sampleZone "a" "Zone 1") ⟨"New", "desc", "#00FF00"⟩ "t2"
      { zones := [sampleZone "a" "Zone 1", sampleZone "b" "Zone 2"],
        store := StoreCell.missing, editingZoneId := none }
      (by decide) (by decide)).2.1 1 (sampleZone "b" "Zone 2") (by decide) (by decide)

/-- Serialization commutes with deleting an id, since it preserves ids. -/
theorem serializeZones_filter (zoneId : String) (zs : List Zone) :
    (serializeZones zs).filter (fun d => decide (d.id ≠ zoneId)) =
      serializeZones (zs.filter (fun z => decide (z.id ≠ zoneId))) := by
  induction zs with
  | nil => rfl
  | cons z zs ih =>
    by_cases hz : z.id = zoneId
    · simpa [serializeZones, List.filter_cons, zoneToData, hz] using ih
    · simpa [serializeZones, List.filter_cons, zoneToData, hz] using ih

/-- C1: every mutating operation — creating a zone by drawing completion
or manual creation, saving an attribute edit, or deleting a zone —
synchronously leaves the persisted set equal to the serialization of the
full in-memory registry (given it was so before the operation). -/
theorem claim_C1_mutations_resave_whole_registry (op : MutOp) (s : AppState)
    (h : storeSynced s) : storeSynced (applyMutOp op s) := by
  cases op with
  | draw coords newId now =>
    simp [applyMutOp, polygonComplete, storeSynced, saveZones, loadZones]
  | manual form geo newId now =>
    simp only [applyMutOp, createManualZone]
    split
    · exact h
    · split
      · split
        · exact h
        · simp only [finishManualZone]
          split
          · exact h
          · simp [storeSynced, saveZones, loadZones]
      · split
        · split
          · exact h
          · simp only [finishManualZone]
            split
            · exact h
            · simp [storeSynced, saveZones, loadZones]
        · exact h
  | attrEdit selected form now =>
    simp [applyMutOp, saveZone, storeSynced, saveZones, loadZones]
  | delete zoneId =>
    simp only [applyMutOp, handleDeleteZone]
    cases hf : s.zones.find? (fun z => decide (z.id = zoneId)) with
    | none => exact h
    | some z =>
      show loadZones
          (StoreCell.val ((loadZones s.store).filter (fun d => decide (d.id ≠ zoneId)))) =
        serializeZones (s.zones.filter (fun zone => decide (zone.id ≠ zoneId)))
      rw [show loadZones (StoreCell.val
          ((loadZones s.store).filter (fun d => decide (d.id ≠ zoneId)))) =
          (loadZones s.store).filter (fun d => decide (d.id ≠ zoneId)) from rfl]
      rw [storeSynced] at h
      rw [h, serializeZones_filter]

/-- Witness for C1 at a concrete synced state and a delete operation. -/
theorem claim_C1_mutations_resave_whole_registry_witness :
    storeSynced (applyMutOp (MutOp.delete "a")
      { zones := [sampleZone "a" "Zone 1", sampleZone "b" "Zone 2"],
        store := StoreCell.val
          [zoneToData (sampleZone "a" "Zone 1"), zoneToData (sampleZone "b" "Zone 2")],
        editingZoneId := none }) :=
  claim_C1_mutations_resave_whole_registry (MutOp.delete "a")
    { zones := [sampleZone "a" "Zone 1", sampleZone "b" "Zone 2"],
      store := StoreCell.val
        [zoneToData (sampleZone "a" "Zone 1"), zoneToData (sampleZone "b" "Zone 2")],
      editingZoneId := none }
    (by
      show loadZones (StoreCell.val
          [zoneToData (sampleZone "a" "Zone 1"), zoneToData (sampleZone "b" "Zone 2")]) =
        serializeZones [sampleZone "a" "Zone 1", sampleZone "b" "Zone 2"]
      decide)

/-- The find-then-mutate editable update as a pointwise map; the two agree
when ids are distinct. -/
def setEditAll (zoneId : String) (b : Bool) (zs : List Zone) : List Zone :=
  zs.map (fun z => if z.id = zoneId then { z with polyEditable := b } else z)

/-- Setting an editable flag does not change the id list. -/
theorem zoneIds_setEditableFirst (zoneId : String) (b : Bool) (zs : List Zone) :
    zoneIds (setEditableFirst zoneId b zs) = zoneIds zs := by
  induction zs with
  | nil => rfl
  | cons z rest ih =>
    by_cases h : z.id = zoneId
    · simp [setEditableFirst, zoneIds, h]
    · simp only [setEditableFirst, if_neg h, zoneIds, List.map_cons]
      rw [show (setEditableFirst zoneId b rest).map (fun z => z.id)
          = zoneIds (setEditableFirst zoneId b rest) from rfl, ih]
      rfl

/-- The pointwise update is the identity when no entry has the id. -/
theorem setEditAll_eq_self (zoneId : String) (b : Bool) (zs : List Zone)
    (h : ∀ z ∈ zs, z.id ≠ zoneId) : setEditAll zoneId b zs = zs := by
  induction zs with
  | nil => rfl
  | cons z rest ih =>
    have hz : z.id ≠ zoneId := h z (List.mem_cons_self z rest)
    simp only [setEditAll, List.map_cons, if_neg hz, List.cons.injEq]
    exact ⟨trivial, ih (fun z' hz' => h z' (List.mem_cons_of_mem z hz'))⟩

/-- With distinct ids, mutating the first matching entry is the pointwise
update. -/
theorem setEditableFirst_eq_setEditAll (zoneId : String) (b : Bool) (zs : List Zone)
    (h : (zoneIds zs).Nodup) : setEditableFirst zoneId b zs = setEditAll zoneId b zs := by
  induction zs with
  | nil => rfl
  | cons z rest ih =>
    have hcons : z.id ∉ zoneIds rest ∧ (zoneIds rest).Nodup :=
      List.nodup_cons.mp (by simpa [zoneIds] using h)
    by_cases hz : z.id = zoneId
    · have hrest : ∀ z' ∈ rest, z'.id ≠ zoneId := by
        intro z' hz' he
        apply hcons.1
        have hmem : z'.id ∈ zoneIds rest := List.mem_map_of_mem _ hz'
        rw [he] at hmem
        rw [hz]
        exact hmem
      simp only [setEditableFirst, setEditAll, List.map_cons, if_pos hz, List.cons.injEq]
      refine ⟨trivial, ?_⟩
      rw [show rest.map (fun z => if z.id = zoneId then { z with polyEditable := b } else z)
          = setEditAll zoneId b rest from rfl, setEditAll_eq_self _ _ _ hrest]
    · simp only [setEditableFirst, setEditAll, List.map_cons, if_neg hz, List.cons.injEq]
      exact ⟨trivial, ih hcons.2⟩

/-- Toggling vertex-edit mode preserves the vertex-edit invariant. -/
theorem editInv_toggle (zoneId : String) (s : AppState) (h : EditInv s) :
    EditInv (toggleZoneEditMode zoneId s) := by
  obtain ⟨hnodup, hflag, hmemb⟩ := h
  unfold toggleZoneEditMode
  cases hf : s.zones.find? (fun z => decide (z.id = zoneId)) with
  | none => exact ⟨hnodup, hflag, hmemb⟩
  | some w =>
    have hwid : w.id = zoneId := by simpa using List.find?_some hf
    have hwmem : w ∈ s.zones := List.mem_of_find?_eq_some hf
    have hzidmem : zoneId ∈ zoneIds s.zones := by
      rw [← hwid]
      exact List.mem_map_of_mem _ hwmem
    by_cases he : s.editingZoneId = some zoneId
    · rw [if_pos he]
      refine ⟨?_, ?_, ?_⟩
      · show (zoneIds (setEditableFirst zoneId false s.zones)).Nodup
        rw [zoneIds_setEditableFirst]
        exact hnodup
      · intro z' hz'
        show z'.polyEditable = true ↔ none = some z'.id
        rw [setEditableFirst_eq_setEditAll _ _ _ hnodup] at hz'
        obtain ⟨z, hzmem, rfl⟩ := List.mem_map.mp hz'
        by_cases hzz : z.id = zoneId
        · simp [if_pos hzz]
        · rw [if_neg hzz]
          have hpe : z.polyEditable = false := by
            have hiff := hflag z hzmem
            rw [he] at hiff
            cases hp : z.polyEditable
            · rfl
            · exact absurd (Option.some.inj (hiff.mp hp)).symm hzz
          simp [hpe]
      · intro x hx
        exact absurd hx (by simp)
    · rw [if_neg he]
      cases hE : s.editingZoneId with
      | none =>
        refine ⟨?_, ?_, ?_⟩
        · show (zoneIds (setEditableFirst zoneId true s.zones)).Nodup
          rw [zoneIds_setEditableFirst]
          exact hnodup
        · intro z' hz'
          have hz2 : z' ∈ setEditableFirst zoneId true s.zones := hz'
          show z'.polyEditable = true ↔ some zoneId = some z'.id
          rw [setEditableFirst_eq_setEditAll _ _ _ hnodup] at hz2
          obtain ⟨z, hzmem, rfl⟩ := List.mem_map.mp hz2
          by_cases hzz : z.id = zoneId
          · simp [if_pos hzz, hzz]
          · rw [if_neg hzz]
            have hpe : z.polyEditable = false := by
              have hiff := hflag z hzmem
              rw [hE] at hiff
              cases hp : z.polyEditable
              · rfl
              · cases hiff.mp hp
            simp [hpe, Ne.symm hzz]
        · intro x hx
          have hx' : zoneId = x := by simpa using hx
          show x ∈ zoneIds (setEditableFirst zoneId true s.zones)
          rw [zoneIds_setEditableFirst, ← hx']
          exact hzidmem
      | some prev =>
        have hnodup1 : (zoneIds (setEditableFirst prev false s.zones)).Nodup := by
          rw [zoneIds_setEditableFirst]
          exact hnodup
        refine ⟨?_, ?_, ?_⟩
        · show (zoneIds (setEditableFirst zoneId true
            (setEditableFirst prev false s.zones))).Nodup
          rw [zoneIds_setEditableFirst, zoneIds_setEditableFirst]
          exact hnodup
        · intro z' hz'
          have hz2 : z' ∈ setEditableFirst zoneId true
              (setEditableFirst prev false s.zones) := hz'
          show z'.polyEditable = true ↔ some zoneId = some z'.id
          rw [setEditableFirst_eq_setEditAll _ _ _ hnodup1,
            setEditableFirst_eq_setEditAll _ _ _ hnodup] at hz2
          obtain ⟨z1, hz1mem, rfl⟩ := List.mem_map.mp hz2
          obtain ⟨z, hzmem, rfl⟩ := List.mem_map.mp hz1mem
          have hfid : (if z.id = prev then { z with polyEditable := false } else z).id
              = z.id := by
            by_cases h2 : z.id = prev <;> simp [h2]
          by_cases hzz : z.id = zoneId
          · rw [if_pos (hfid.trans hzz)]
            refine ⟨fun _ => ?_, fun _ => rfl⟩
            show (some zoneId : Option String) =
              some (if z.id = prev then { z with polyEditable := false } else z).id
            rw [hfid, hzz]
          · rw [if_neg (fun hc => hzz (hfid ▸ hc))]
            by_cases h2 : z.id = prev
            · rw [if_pos h2]
              simp [Ne.symm hzz]
            · rw [if_neg h2]
              have hpe : z.polyEditable = false := by
                have hiff := hflag z hzmem
                rw [hE] at hiff
                cases hp : z.polyEditable
                · rfl
                · exact absurd (Option.some.inj (hiff.mp hp)).symm h2
              simp [hpe, Ne.symm hzz]
        · intro x hx
          have hx' : zoneId = x := by simpa using hx
          show x ∈ zoneIds (setEditableFirst zoneId true
            (setEditableFirst prev false s.zones))
          rw [zoneIds_setEditableFirst, zoneIds_setEditableFirst, ← hx']
          exact hzidmem

/-- Appending a freshly-created non-editable zone preserves the
vertex-edit invariant (the store cell is irrelevant to it). -/
theorem editInv_append_zone (s : AppState) (newZone : Zone) (st' : StoreCell)
    (hpe : newZone.polyEditable = false) (fresh : newZone.id ∉ zoneIds s.zones)
    (h : EditInv s) :
    EditInv
      { zones := s.zones ++ [newZone]
        store := st'
        editingZoneId := s.editingZoneId } := by
  obtain ⟨hnodup, hflag, hmemb⟩ := h
  have hids : zoneIds (s.zones ++ [newZone]) = zoneIds s.zones ++ [newZone.id] := by
    simp [zoneIds]
  refine ⟨?_, ?_, ?_⟩
  · show (zoneIds (s.zones ++ [newZone])).Nodup
    rw [hids, List.nodup_append]
    exact ⟨hnodup, List.nodup_singleton _, by simpa using fresh⟩
  · intro z hz
    rcases List.mem_append.mp hz with hz1 | hz2
    · exact hflag z hz1
    · have hz' : z = newZone := by simpa using hz2
      subst hz'
      rw [hpe]
      constructor
      · intro hfalse
        cases hfalse
      · intro hEd
        exact absurd (hmemb _ hEd) fresh
  · intro x hx
    have hx' := hmemb x hx
    show x ∈ zoneIds (s.zones ++ [newZone])
    rw [hids]
    exact List.mem_append.mpr (Or.inl hx')

/-- Completing a drawing preserves the vertex-edit invariant. -/
theorem editInv_polygonComplete (coords : List Coord) (newId now : String) (s : AppState)
    (fresh : newId ∉ zoneIds s.zones) (h : EditInv s) :
    EditInv (polygonComplete coords newId now s) :=
  editInv_append_zone s
    { id := newId, name := generateZoneName s.zones, description := "",
      coordinates := coords, color := "#FF0000",
      createdAt := now, updatedAt := now, polyEditable := false }
    _ rfl fresh h

/-- The shared manual-creation tail preserves the vertex-edit invariant. -/
theorem editInv_finishManualZone (form : ManualForm) (coordinates : List Coord)
    (newId now : String) (s : AppState) (fresh : newId ∉ zoneIds s.zones)
    (h : EditInv s) : EditInv (finishManualZone form coordinates newId now s).1 := by
  unfold finishManualZone
  split
  · exact h
  · exact editInv_append_zone s
      { id := newId, name := form.name, description := form.description,
        coordinates := coordinates, color := form.color,
        createdAt := now, updatedAt := now, polyEditable := false }
      _ rfl fresh h

/-- A manual-creation attempt preserves the vertex-edit invariant. -/
theorem editInv_createManualZone (form : ManualForm) (geo : Option (Frac × Frac))
    (newId now : String) (s : AppState) (fresh : newId ∉ zoneIds s.zones)
    (h : EditInv s) : EditInv (createManualZone form geo newId now s).1 := by
  unfold createManualZone
  split
  · exact h
  · split
    · split
      · exact h
      · exact editInv_finishManualZone _ _ _ _ _ fresh h
    · split
      · split
        · exact h
        · exact editInv_finishManualZone _ _ _ _ _ fresh h
      · exact h

/-- Saving an attribute edit preserves the vertex-edit invariant. -/
theorem editInv_saveZone (selected : Zone) (form : EditForm) (now : String)
    (s : AppState) (hmem : selected ∈ s.zones) (h : EditInv s) :
    EditInv (saveZone selected form now s) := by
  obtain ⟨hnodup, hflag, hmemb⟩ := h
  have hids : zoneIds (saveZone selected form now s).zones = zoneIds s.zones := by
    show zoneIds (s.zones.map _) = _
    simp only [zoneIds, List.map_map]
    refine List.map_congr_left (fun z _ => ?_)
    by_cases hzz : z.id = selected.id
    · simp [Function.comp_def, hzz]
    · simp [Function.comp_def, hzz]
  refine ⟨?_, ?_, ?_⟩
  · rw [hids]
    exact hnodup
  · intro z' hz'
    have hz2 : z' ∈ s.zones.map (fun zone => if zone.id = selected.id then
        { selected with
          name := form.name, description := form.description,
          color := form.color, updatedAt := now } else zone) := hz'
    obtain ⟨z, hzmem, rfl⟩ := List.mem_map.mp hz2
    show _ ↔ s.editingZoneId = some _
    by_cases hzz : z.id = selected.id
    · have hzsel : z = selected := zone_eq_of_id_eq s.zones hnodup hzmem hmem hzz
      subst hzsel
      rw [if_pos rfl]
      exact hflag z hzmem
    · rw [if_neg hzz]
      exact hflag z hzmem
  · intro x hx
    rw [hids]
    exact hmemb x hx

/-- Deleting a zone preserves the vertex-edit invariant. -/
theorem editInv_handleDeleteZone (zoneId : String) (s : AppState) (h : EditInv s) :
    EditInv (handleDeleteZone zoneId s) := by
  obtain ⟨hnodup, hflag, hmemb⟩ := h
  unfold handleDeleteZone
  cases hf : s.zones.find? (fun z => decide (z.id = zoneId)) with
  | none => exact ⟨hnodup, hflag, hmemb⟩
  | some w =>
    refine ⟨?_, ?_, ?_⟩
    · show (zoneIds (s.zones.filter (fun z => decide (z.id ≠ zoneId)))).Nodup
      exact List.Nodup.sublist ((List.filter_sublist s.zones).map _) hnodup
    · intro z hz
      have hzmem : z ∈ s.zones := List.mem_of_mem_filter hz
      have hzne : z.id ≠ zoneId := by simpa using List.of_mem_filter hz
      show z.polyEditable = true ↔
        (if s.editingZoneId = some zoneId then none else s.editingZoneId) = some z.id
      by_cases hEd : s.editingZoneId = some zoneId
      · rw [if_pos hEd]
        have hpe : z.polyEditable = false := by
          have hiff := hflag z hzmem
          rw [hEd] at hiff
          cases hp : z.polyEditable
          · rfl
          · exact absurd (Option.some.inj (hiff.mp hp)).symm hzne
        simp [hpe]
      · rw [if_neg hEd]
        exact hflag z hzmem
    · intro x hx
      have hx' : (if s.editingZoneId = some zoneId then none else s.editingZoneId)
          = some x := hx
      by_cases hEd : s.editingZoneId = some zoneId
      · rw [if_pos hEd] at hx'
        cases hx'
      · rw [if_neg hEd] at hx'
        have hxmem := hmemb x hx'
        have hxne : x ≠ zoneId := fun hxz => hEd (by rw [← hxz]; exact hx')
        obtain ⟨z, hzmem, hzid⟩ := List.mem_map.mp hxmem
        show x ∈ zoneIds (s.zones.filter (fun z => decide (z.id ≠ zoneId)))
        refine List.mem_map.mpr ⟨z, List.mem_filter.mpr ⟨hzmem, ?_⟩, hzid⟩
        exact decide_eq_true (by rw [show z.id = x from hzid]; exact hxne)

/-- A startup state satisfies the vertex-edit invariant. -/
theorem initState_editInv (s : AppState) (h : InitState s) : EditInv s := by
  obtain ⟨hE, hpe, hnodup⟩ := h
  refine ⟨hnodup, ?_, ?_⟩
  · intro z hz
    rw [hpe z hz, hE]
    simp
  · intro x hx
    rw [hE] at hx
    cases hx

/-- Every reachable editor state satisfies the vertex-edit invariant. -/
theorem reachable_editInv (s : AppState) (h : Reachable s) : EditInv s := by
  induction h with
  | init s1 h1 => exact initState_editInv s1 h1
  | step s1 s2 hr hs ih =>
    cases hs with
    | toggle zoneId s1 => exact editInv_toggle zoneId s1 ih
    | draw coords newId now s1 fresh =>
      exact editInv_polygonComplete coords newId now s1 fresh ih
    | manual form geo newId now s1 fresh =>
      exact editInv_createManualZone form geo newId now s1 fresh ih
    | attrEdit selected form now s1 hmem =>
      exact editInv_saveZone selected form now s1 hmem ih
    | delete zoneId s1 => exact editInv_handleDeleteZone zoneId s1 ih

/-- The vertex-edit invariant bounds the editable overlays by one. -/
theorem editInv_atMostOne (s : AppState) (h : EditInv s) : atMostOneEditable s := by
  obtain ⟨hnodup, hflag, _⟩ := h
  unfold atMostOneEditable
  rcases hl : s.zones.filter (fun z => z.polyEditable) with - | ⟨a, - | ⟨b, t⟩⟩
  · rw [hl]
    simp
  · rw [hl]
    simp
  · exfalso
    have hsub : List.Sublist (a :: b :: t) s.zones := hl ▸ List.filter_sublist s.zones
    have hamem : a ∈ s.zones := hsub.subset (by simp)
    have hbmem : b ∈ s.zones := hsub.subset (by simp)
    have hafil : a ∈ s.zones.filter (fun z => z.polyEditable) := by
      rw [hl]
      simp
    have hbfil : b ∈ s.zones.filter (fun z => z.polyEditable) := by
      rw [hl]
      simp
    have hape : a.polyEditable = true := by simpa using List.of_mem_filter hafil
    have hbpe : b.polyEditable = true := by simpa using List.of_mem_filter hbfil
    have ha := (hflag a hamem).mp hape
    have hb := (hflag b hbmem).mp hbpe
    have hab : a.id = b.id := Option.some.inj (ha.symm.trans hb)
    have hidnodup : (zoneIds (a :: b :: t)).Nodup :=
      List.Nodup.sublist (hsub.map _) hnodup
    have hnotin : a.id ∉ zoneIds (b :: t) := (List.nodup_cons.mp hidnodup).1
    exact hnotin (by rw [hab]; exact List.mem_map_of_mem _ (List.mem_cons_self b t))

/-- Toggling vertex-edit mode onto zone B while zone A is in that mode
leaves exactly B editable. -/
theorem toggle_scenario (s : AppState) (idA : String) (zB : Zone) (h : EditInv s)
    (hE : s.editingZoneId = some idA) (hB : zB ∈ s.zones) (hne : zB.id ≠ idA) :
    ∀ z' ∈ (toggleZoneEditMode zB.id s).zones,
      (z'.polyEditable = true ↔ z'.id = zB.id) := by
  obtain ⟨hnodup, hflag, hmemb⟩ := h
  unfold toggleZoneEditMode
  cases hf : s.zones.find? (fun z => decide (z.id = zB.id)) with
  | none =>
    exfalso
    exact absurd (List.find?_eq_none.mp hf zB hB) (by simp)
  | some w =>
    have hite : ¬(s.editingZoneId = some zB.id) := by
      rw [hE]
      intro hc
      exact hne (Option.some.inj hc).symm
    rw [if_neg hite]
    intro z' hz'
    rw [hE] at hz'
    have hnodup1 : (zoneIds (setEditableFirst idA false s.zones)).Nodup := by
      rw [zoneIds_setEditableFirst]
      exact hnodup
    have hz2 : z' ∈ setEditableFirst zB.id true
        (setEditableFirst idA false s.zones) := hz'
    rw [setEditableFirst_eq_setEditAll _ _ _ hnodup1,
      setEditableFirst_eq_setEditAll _ _ _ hnodup] at hz2
    obtain ⟨z1, hz1mem, rfl⟩ := List.mem_map.mp hz2
    obtain ⟨z, hzmem, rfl⟩ := List.mem_map.mp hz1mem
    have hfid : (if z.id = idA then { z with polyEditable := false } else z).id
        = z.id := by
      by_cases h2 : z.id = idA <;> simp [h2]
    by_cases hzz : z.id = zB.id
    · rw [if_pos (hfid.trans hzz)]
      refine ⟨fun _ => ?_, fun _ => rfl⟩
      show (if z.id = idA then { z with polyEditable := false } else z).id = zB.id
      rw [hfid, hzz]
    · rw [if_neg (fun hc => hzz (hfid ▸ hc))]
      by_cases h2 : z.id = idA
      · rw [if_pos h2]
        simp [fun hc : z.id = zB.id => hzz hc]
      · rw [if_neg h2]
        have hpe : z.polyEditable = false := by
          have hiff := hflag z hzmem
          rw [hE] at hiff
          cases hp : z.polyEditable
          · rfl
          · exact absurd (Option.some.inj (hiff.mp hp)).symm h2
        simp [hpe, hzz]

/-- C7: in every reachable editor state at most one zone is in vertex-edit
mode, and enabling vertex-edit mode on zone B while zone A is in that mode
results in a state where exactly B's overlay is editable and A's overlay
is non-editable. -/
theorem claim_C7_single_edit_invariant :
    (∀ s : AppState, Reachable s → atMostOneEditable s) ∧
    (∀ (s : AppState) (idA : String) (zB : Zone), Reachable s →
      s.editingZoneId = some idA → zB ∈ s.zones → zB.id ≠ idA →
      ∀ z' ∈ (toggleZoneEditMode zB.id s).zones,
        (z'.polyEditable = true ↔ z'.id = zB.id)) :=
  ⟨fun s hr => editInv_atMostOne s (reachable_editInv s hr),
    fun s idA zB hr hE hB hne =>
      toggle_scenario s idA zB (reachable_editInv s hr) hE hB hne⟩

/-- A concrete startup state for the C7 witness. -/
def witnessInit : AppState :=
  { zones := [sampleZone "a" "Zone 1", sampleZone "b" "Zone 2"],
    store := StoreCell.missing, editingZoneId := none }

/-- Witness for C7 at a concrete reachable state: after toggling zone
`"a"` into edit mode, at most one overlay is editable, and then toggling
zone `"b"` leaves exactly `"b"` editable. -/
theorem claim_C7_single_edit_invariant_witness :
    atMostOneEditable (toggleZoneEditMode "a" witnessInit) ∧
    (∀ z' ∈ (toggleZoneEditMode "b" (toggleZoneEditMode "a" witnessInit)).zones,
      (z'.polyEditable = true ↔ z'.id = "b")) :=
  have hreach : Reachable (toggleZoneEditMode "a" witnessInit) :=
    Reachable.step _ _ (Reachable.init witnessInit ⟨rfl, by decide, by decide⟩)
      (Step.toggle "a" witnessInit)
  ⟨claim_C7_single_edit_invariant.1 _ hreach,
    fun z' hz' => claim_C7_single_edit_invariant.2 _ "a" (sampleZone "b" "Zone 2")
      hreach (by decide) (by decide) (by decide) z' hz'⟩

end Zoning
